import Mathlib

/-!
Shallow embedding of the host-side ESP ROM-protocol engine
(src/espflash/src/flasher.rs and src/espflash/src/chip/mod.rs).

The Connection / SLIP layer is not part of the given sources; following the
spec (sections 4.2 and 6), a command handed to the connection is modelled as a
Frame record holding the opcode byte, the declared payload length, the payload
bytes and the 32-bit checksum slot.  Bytes are natural numbers; wrapping casts
of the source (as u16, as u32) are modelled with explicit mod operations.
-/

namespace EspFlash

/-- Little-endian byte encoding of a 32-bit field, as bytemuck's bytes_of
produces for each u32 member of a repr(C) params struct.  Values at or above
2 to the 32 wrap, matching an "as u32" cast. -/
def le32 (n : ℕ) : List ℕ := [n % 256, n / 256 % 256, n / 65536 % 256, n / 16777216 % 256]

/-- flasher.rs: const MAX_RAM_BLOCK_SIZE = 0x1800. -/
def MAX_RAM_BLOCK_SIZE : ℕ := 0x1800

/-- flasher.rs: const FLASH_SECTOR_SIZE = 0x1000. -/
def FLASH_SECTOR_SIZE : ℕ := 0x1000

/-- flasher.rs: const FLASH_BLOCK_SIZE = 0x100. -/
def FLASH_BLOCK_SIZE : ℕ := 0x100

/-- flasher.rs: const FLASH_SECTORS_PER_BLOCK = FLASH_SECTOR_SIZE / FLASH_BLOCK_SIZE. -/
def FLASH_SECTORS_PER_BLOCK : ℕ := FLASH_SECTOR_SIZE / FLASH_BLOCK_SIZE

/-- flasher.rs: const FLASH_WRITE_SIZE = 0x400. -/
def FLASH_WRITE_SIZE : ℕ := 0x400

/-- flasher.rs: const CHECKSUM_INIT = 0xEF. -/
def CHECKSUM_INIT : ℕ := 0xEF

/-- chip/mod.rs: enum Chip with the three supported chips. -/
inductive Chip
  | Esp8266
  | Esp32
  | Esp32c3
deriving DecidableEq

/-- flasher.rs: enum Command (ROM opcodes). -/
inductive Command
  | FlashBegin
  | FlashData
  | FlashEnd
  | MemBegin
  | MemEnd
  | MemData
  | Sync
  | WriteReg
  | ReadReg
  | SpiSetParams
  | SpiAttach
  | ChangeBaud
deriving DecidableEq

/-- The repr(u8) discriminants of Command. -/
def Command.toByte : Command → ℕ
  | .FlashBegin => 0x02
  | .FlashData => 0x03
  | .FlashEnd => 0x04
  | .MemBegin => 0x05
  | .MemEnd => 0x06
  | .MemData => 0x07
  | .Sync => 0x08
  | .WriteReg => 0x09
  | .ReadReg => 0x0a
  | .SpiSetParams => 0x0b
  | .SpiAttach => 0x0d
  | .ChangeBaud => 0x0f

/-- The error taxonomy used by the flasher (error.rs is not in the sources;
the constructors and their payloads are those referenced from flasher.rs). -/
inductive Error
  | FramingError
  | Timeout
  | ConnectionFailed
  | RomError (code : ℕ)
  | UnrecognizedChip
  | UnsupportedFlash (value : ℕ)
  | InvalidElf
  | ElfNotRamLoadable
deriving DecidableEq

/-- flasher.rs: enum FlashSize, repr(u8). -/
inductive FlashSize
  | Flash256KB
  | Flash512KB
  | Flash1MB
  | Flash2MB
  | Flash4MB
  | Flash8MB
  | Flash16MB
deriving DecidableEq

/-- The repr(u8) discriminants of FlashSize. -/
def FlashSize.toByte : FlashSize → ℕ
  | .Flash256KB => 0x12
  | .Flash512KB => 0x13
  | .Flash1MB => 0x14
  | .Flash2MB => 0x15
  | .Flash4MB => 0x16
  | .Flash8MB => 0x17
  | .Flash16MB => 0x18

/-- flasher.rs: FlashSize::from.  (The Rust name "from" is a Lean keyword.) -/
def FlashSize.ofByte (value : ℕ) : Except Error FlashSize :=
  match value with
  | 0x12 => .ok .Flash256KB
  | 0x13 => .ok .Flash512KB
  | 0x14 => .ok .Flash1MB
  | 0x15 => .ok .Flash2MB
  | 0x16 => .ok .Flash4MB
  | 0x17 => .ok .Flash8MB
  | 0x18 => .ok .Flash16MB
  | _ => .error (.UnsupportedFlash value)

/-- flasher.rs: fn checksum(data, checksum) - XOR fold over the bytes. -/
def checksum (data : List ℕ) (seed : ℕ) : ℕ :=
  data.foldl (fun c b => c ^^^ b) seed

/-- flasher.rs: fn get_erase_size(offset, size) - the ESP8266 head-aligned
erase extent. -/
def get_erase_size (offset size : ℕ) : ℕ :=
  let sector_count := (size + FLASH_SECTOR_SIZE - 1) / FLASH_SECTOR_SIZE
  let start_sector := offset / FLASH_SECTOR_SIZE
  let head_sectors :=
    min (FLASH_SECTORS_PER_BLOCK - start_sector % FLASH_SECTORS_PER_BLOCK) sector_count
  if sector_count < 2 * head_sectors then
    (sector_count + 1) / 2 * FLASH_SECTOR_SIZE
  else
    (sector_count - head_sectors) * FLASH_SECTOR_SIZE

/-- Modelled from the spec: the section 4.5 erase-size formula, written with
an explicit ceiling division, to be compared with get_erase_size. -/
def eraseSizeSpec (offset size : ℕ) : ℕ :=
  let sectors : ℕ := size ⌈/⌉ FLASH_SECTOR_SIZE
  let start_sector := offset / FLASH_SECTOR_SIZE
  let head_sectors := min (16 - start_sector % 16) sectors
  if sectors < 2 * head_sectors then
    (sectors ⌈/⌉ (2 : ℕ)) * FLASH_SECTOR_SIZE
  else
    (sectors - head_sectors) * FLASH_SECTOR_SIZE

/-- One request as handed to the connection: opcode byte, declared payload
length, payload bytes and the value for the 32-bit checksum slot.  Modelled
from the spec (section 4.2): the connection emits exactly these fields in the
request frame. -/
structure Frame where
  op : ℕ
  declared : ℕ
  payload : List ℕ
  checksum : ℕ
deriving DecidableEq

/-- connection.command / write_command with a plain byte-slice payload: the
declared length is the payload byte count (spec sections 4.2 and 6). -/
def mkDataFrame (cmd : Command) (payload : List ℕ) (ck : ℕ) : Frame :=
  { op := cmd.toByte, declared := payload.length, payload := payload, checksum := ck }

/-- flasher.rs: Flasher::begin_command - BeginParams{size, blocks, block_size,
offset} serialized little-endian, checksum 0. -/
def beginFrame (cmd : Command) (size blocks block_size offset : ℕ) : Frame :=
  mkDataFrame cmd (le32 size ++ le32 blocks ++ le32 block_size ++ le32 offset) 0

/-- The frame built by Flasher::block_command: BlockParams{size, sequence, 0, 0}
followed by the data and the padding slice, with the declared length passed as
a u16 and the XOR checksum of data then padding bytes.  The padding slice is
taken from a FLASH_WRITE_SIZE-long buffer of the padding byte, exactly as in
the source. -/
def mkBlockFrame (cmd : Command) (data : List ℕ) (padding : ℕ) (padding_byte : ℕ)
    (sequence : ℕ) : Frame :=
  { op := cmd.toByte
    declared := (16 + data.length + padding) % 65536
    payload := (le32 (data.length + padding) ++ le32 sequence ++ le32 0 ++ le32 0)
      ++ data ++ (List.replicate FLASH_WRITE_SIZE padding_byte).take padding
    checksum := (List.range padding).foldl (fun c _ => checksum [padding_byte] c)
      (checksum data CHECKSUM_INIT) }

/-- flasher.rs: Flasher::block_command.  The source slices the padding out of a
fixed FLASH_WRITE_SIZE-byte array; a padding count above FLASH_WRITE_SIZE makes
that slice index out of bounds (a panic), modelled as none. -/
def blockCommand (cmd : Command) (data : List ℕ) (padding : ℕ) (padding_byte : ℕ)
    (sequence : ℕ) : Option Frame :=
  if padding ≤ FLASH_WRITE_SIZE then
    some (mkBlockFrame cmd data padding padding_byte sequence)
  else
    none

/-- Rust's slice::chunks: split a list into consecutive pieces of at most n
elements; the last piece may be shorter.  (The source never calls it with
n = 0, which Rust would reject; that case returns [] here.) -/
def chunks (n : ℕ) (l : List α) : List (List α) :=
  if h : n = 0 ∨ l.length = 0 then [] else l.take n :: chunks n (l.drop n)
termination_by l.length
decreasing_by
  push_neg at h
  simp only [List.length_drop]
  omega

/-- Sequencing of a list of fallible results: none as soon as one entry is
none, matching a loop whose body can fail. -/
def collectSome : List (Option α) → Option (List α)
  | [] => some []
  | none :: _ => none
  | some a :: rest => (collectSome rest).map (a :: ·)

/-- A program segment handed to the flasher: address plus data bytes
(elf.rs is external; spec section 6). -/
structure Segment where
  addr : ℕ
  data : List ℕ
deriving DecidableEq

/-- Modelled from the spec: the external FirmwareImage contract (section 6) -
entry point plus the ram and rom segment lists for the bound chip. -/
structure FirmwareImage where
  entry : ℕ
  ramSegments : List Segment
  romSegments : List Segment

/-- load_elf_to_ram: padding = 4 - len mod 4. -/
def ramPad (len : ℕ) : ℕ := 4 - len % 4

/-- load_elf_to_ram: block_count = (len + padding + MAX_RAM_BLOCK_SIZE - 1) /
MAX_RAM_BLOCK_SIZE. -/
def ramBlockCount (len : ℕ) : ℕ :=
  (len + ramPad len + MAX_RAM_BLOCK_SIZE - 1) / MAX_RAM_BLOCK_SIZE

/-- The frames load_elf_to_ram sends for one ram segment: MemBegin, then one
MemData per chunk of the data, where a chunk gets the alignment padding only
when its index equals block_count - 1. -/
def ramSegmentFrames (s : Segment) : Option (List Frame) :=
  let len := s.data.length
  let block_count := ramBlockCount len
  (collectSome ((chunks MAX_RAM_BLOCK_SIZE s.data).enum.map
      (fun p => blockCommand .MemData p.2
        (if p.1 = block_count - 1 then ramPad len else 0) 0 p.1))).map
    (fun blocks => beginFrame .MemBegin len block_count MAX_RAM_BLOCK_SIZE s.addr :: blocks)

/-- flasher.rs: Flasher::mem_finish - MemEnd with
EntryParams{no_entry = (entry == 0), entry}, checksum 0. -/
def memFinishFrame (entry : ℕ) : Frame :=
  mkDataFrame .MemEnd (le32 (if entry = 0 then 1 else 0) ++ le32 entry) 0

/-- flasher.rs: Flasher::load_elf_to_ram, as the list of frames handed to the
connection paired with the result.  A rom segment aborts with
ElfNotRamLoadable before anything is sent.  The outer none stands for a
padding-slice panic inside block_command (never reached, since ramPad is at
most 4). -/
def loadElfToRam (image : FirmwareImage) : Option (List Frame × Except Error Unit) :=
  if image.romSegments ≠ [] then
    some ([], .error .ElfNotRamLoadable)
  else
    (collectSome (image.ramSegments.map ramSegmentFrames)).map
      (fun fss => (fss.flatten ++ [memFinishFrame image.entry], .ok ()))

/-- The erase_size match in load_elf_to_flash.  flasher.rs line 440 has arms
only for Chip::Esp32 (the segment length) and Chip::Esp8266 (get_erase_size);
there is no arm for Chip::Esp32c3, so that case is undefined (none). -/
def eraseSizeFor : Chip → ℕ → ℕ → Option ℕ
  | .Esp32, _, len => some len
  | .Esp8266, addr, len => some (get_erase_size addr len)
  | .Esp32c3, _, _ => none

/-- The frames load_elf_to_flash sends for one flash segment: FlashBegin with
the chip's erase size, then one FlashData per chunk, each padded up to
FLASH_WRITE_SIZE with 0xFF. -/
def flashSegmentFrames (chip : Chip) (s : Segment) : Option (List Frame) :=
  let len := s.data.length
  let block_count := (len + FLASH_WRITE_SIZE - 1) / FLASH_WRITE_SIZE
  match eraseSizeFor chip s.addr len with
  | none => none
  | some erase_size =>
    (collectSome ((chunks FLASH_WRITE_SIZE s.data).enum.map
        (fun p => blockCommand .FlashData p.2 (FLASH_WRITE_SIZE - p.2.length) 0xff p.1))).map
      (fun blocks =>
        beginFrame .FlashBegin erase_size block_count FLASH_WRITE_SIZE s.addr :: blocks)

/-- flasher.rs: Flasher::flash_finish - FlashEnd with the single byte
not-reboot, checksum 0. -/
def flashFinishFrame (reboot : Bool) : Frame :=
  mkDataFrame .FlashEnd [if reboot then 0 else 1] 0

/-- flasher.rs: Flasher::enable_flash.  The match has arms only for
Chip::Esp8266 (FlashBegin all-zero except block_size) and Chip::Esp32
(SpiAttach with five zero bytes); there is no arm for Chip::Esp32c3, so that
case is undefined (none). -/
def enableFlash : Chip → Option Frame
  | .Esp8266 => some (beginFrame .FlashBegin 0 0 FLASH_WRITE_SIZE 0)
  | .Esp32 => some (mkDataFrame .SpiAttach (List.replicate 5 0) 0)
  | .Esp32c3 => none

/-- flasher.rs: Flasher::load_elf_to_flash, as the list of frames handed to
the connection: enable_flash, the per-segment frames, then
flash_finish(false).  The segments come from the external per-chip layout
module (spec section 6).  none stands for an undefined chip case or a
padding panic. -/
def loadElfToFlash (chip : Chip) (segments : List Segment) : Option (List Frame) :=
  match enableFlash chip with
  | none => none
  | some ef =>
    (collectSome (segments.map (flashSegmentFrames chip))).map
      (fun fss => ef :: fss.flatten ++ [flashFinishFrame false])

/-- Observable steps of the spi_command poll loop: the 1 ms sleep and the read
of the usr register (through the ReadReg primitive). -/
inductive SpiEvent
  | sleepMs (ms : ℕ)
  | readUsr (value : ℕ)
deriving DecidableEq

/-- Whether an event is a read of usr. -/
def SpiEvent.isRead : SpiEvent → Bool
  | .readUsr _ => true
  | _ => false

/-- The poll loop of Flasher::spi_command after the controller kick, reading
usr values from the abstract device (reads k is the value of the k-th read).
Each iteration sleeps 1 ms, reads usr, stops when bit 18 is clear, and
otherwise increments the counter i, failing with Timeout once i exceeds 10;
the fuel argument stands for 10 - i. -/
def spiPollGo (reads : ℕ → ℕ) : ℕ → ℕ → List SpiEvent × Except Error Unit
  | fuel, k =>
    let r := reads k
    if (r.testBit 18 : Bool) = false then
      ([.sleepMs 1, .readUsr r], .ok ())
    else
      match fuel with
      | 0 => ([.sleepMs 1, .readUsr r], .error .Timeout)
      | f + 1 =>
        let t := spiPollGo reads f (k + 1)
        (.sleepMs 1 :: .readUsr r :: t.1, t.2)

/-- The spi_command poll with its initial counter i = 0 (so at most 11 reads
of usr before Timeout). -/
def spiPoll (reads : ℕ → ℕ) : List SpiEvent × Except Error Unit :=
  spiPollGo reads 10 0

/-- flasher.rs / connection: the fields of a decoded response frame used by
the flasher (return_op, value, status, error).  Modelled from the spec
(section 3, ResponseFrame); connection.rs is not in the sources. -/
structure Response where
  return_op : ℕ
  value : ℕ
  status : ℕ
  error : ℕ
deriving DecidableEq

/-- Observable connection-level steps of sync / start_connection.  Modelled
from the spec (section 4.2): reset_to_flash, flush, the Sync request, and each
read_response outcome (none is a read timeout). -/
inductive ConnEvent
  | resetToFlash
  | flushPort
  | writeSync
  | readResp (r : Option Response)
deriving DecidableEq

/-- The inner poll of Flasher::sync: up to fuel (initially 100) reads; a
response whose return_op is Sync stops the loop - with the device's error
code when status = 1, silently otherwise; anything else is skipped.  Returns
the events, the RomError code when failing, and the next read cursor. -/
def syncPoll (resp : ℕ → Option Response) : ℕ → ℕ → List ConnEvent × Option ℕ × ℕ
  | 0, c => ([], none, c)
  | fuel + 1, c =>
    match resp c with
    | some r =>
      if r.return_op = Command.Sync.toByte then
        if r.status = 1 then ([.readResp (resp c)], some r.error, c + 1)
        else ([.readResp (resp c)], none, c + 1)
      else
        let t := syncPoll resp fuel (c + 1)
        (.readResp (resp c) :: t.1, t.2)
    | none =>
      let t := syncPoll resp fuel (c + 1)
      (.readResp (resp c) :: t.1, t.2)

/-- One batch of the trailing-echo drain in Flasher::sync: up to fuel
(initially 100) reads, stopping after the first actual response. -/
def drainBatch (resp : ℕ → Option Response) : ℕ → ℕ → List ConnEvent × ℕ
  | 0, c => ([], c)
  | fuel + 1, c =>
    match resp c with
    | some _ => ([.readResp (resp c)], c + 1)
    | none =>
      let t := drainBatch resp fuel (c + 1)
      (.readResp (resp c) :: t.1, t.2)

/-- The outer drain loop of Flasher::sync: batches (initially 7) runs of
drainBatch with fuel 100 each. -/
def drainEchoes (resp : ℕ → Option Response) : ℕ → ℕ → List ConnEvent × ℕ
  | 0, c => ([], c)
  | batches + 1, c =>
    let d := drainBatch resp 100 c
    let t := drainEchoes resp batches d.2
    (d.1 ++ t.1, t.2)

/-- flasher.rs: Flasher::sync - write the Sync command, poll up to 100 reads
for the acknowledgement (flushing and failing with the RomError code on a
status-1 Sync response), then drain up to 7 batches of trailing echoes.
Returns the events, the RomError code on failure, and the next read cursor. -/
def sync (resp : ℕ → Option Response) (c : ℕ) : List ConnEvent × Option ℕ × ℕ :=
  let p := syncPoll resp 100 c
  match p.2.1 with
  | some e => (.writeSync :: p.1 ++ [.flushPort], some e, p.2.2)
  | none =>
    let d := drainEchoes resp 7 p.2.2
    (.writeSync :: p.1 ++ d.1, none, d.2)

/-- The retry loop of Flasher::start_connection: up to fuel (initially 10)
attempts, each flushing stale input and then running sync; the first
successful attempt returns Ok, and exhausting the attempts yields
ConnectionFailed. -/
def startConnectionGo (resp : ℕ → Option Response) : ℕ → ℕ → List ConnEvent × Except Error Unit × ℕ
  | 0, c => ([], .error .ConnectionFailed, c)
  | n + 1, c =>
    let s := sync resp c
    match s.2.1 with
    | none => (.flushPort :: s.1, .ok (), s.2.2)
    | some _ =>
      let t := startConnectionGo resp n s.2.2
      (.flushPort :: s.1 ++ t.1, t.2)

/-- flasher.rs: Flasher::start_connection - reset to bootloader, then up to
10 sync attempts. -/
def startConnection (resp : ℕ → Option Response) : List ConnEvent × Except Error Unit :=
  let t := startConnectionGo resp 10 0
  (.resetToFlash :: t.1, t.2.1)

/-- Modelled from the spec: fold_xor (section 8) - plain recursion, to be
compared with checksum. -/
def foldXor : List ℕ → ℕ → ℕ
  | [], seed => seed
  | b :: rest, seed => foldXor rest (seed ^^^ b)

/-- Modelled from the spec: the frames claim C1 describes for one ram
segment - MemBegin(len, block_count, MAX_RAM_BLOCK_SIZE, addr), then the
data split into MAX_RAM_BLOCK_SIZE chunks where the last transmitted chunk
carries the alignment padding (pad byte 0) and all others carry none. -/
def ramSpecSegmentFrames (s : Segment) : List Frame :=
  let len := s.data.length
  let pad := 4 - len % 4
  let block_count := (len + pad + MAX_RAM_BLOCK_SIZE - 1) / MAX_RAM_BLOCK_SIZE
  let cs := chunks MAX_RAM_BLOCK_SIZE s.data
  beginFrame .MemBegin len block_count MAX_RAM_BLOCK_SIZE s.addr ::
    cs.enum.map (fun p =>
      mkBlockFrame .MemData p.2 (if p.1 = cs.length - 1 then pad else 0) 0 p.1)

/-- Modelled from the spec: the frames claim C2 describes for one flash
segment - FlashBegin(erase_size, ceil(len / FLASH_WRITE_SIZE),
FLASH_WRITE_SIZE, addr), then the data split into FLASH_WRITE_SIZE chunks
where the last (possibly short) chunk is padded up to FLASH_WRITE_SIZE with
0xFF and all others carry none. -/
def flashSpecSegmentFrames (erase_size : ℕ) (s : Segment) : List Frame :=
  let len := s.data.length
  let block_count := (len + FLASH_WRITE_SIZE - 1) / FLASH_WRITE_SIZE
  let cs := chunks FLASH_WRITE_SIZE s.data
  beginFrame .FlashBegin erase_size block_count FLASH_WRITE_SIZE s.addr ::
    cs.enum.map (fun p =>
      mkBlockFrame .FlashData p.2
        (if p.1 = cs.length - 1 then FLASH_WRITE_SIZE - p.2.length else 0) 0xff p.1)

section ChunkLemmas

/-- chunks of the empty list. -/
theorem chunks_nil (n : ℕ) : chunks n ([] : List α) = [] := by
  rw [chunks]
  simp

/-- Unfolding of chunks on a nonempty list. -/
theorem chunks_cons (n : ℕ) (l : List α) (hn : 0 < n) (hl : l ≠ []) :
    chunks n l = l.take n :: chunks n (l.drop n) := by
  rw [chunks, dif_neg]
  push_neg
  exact ⟨by omega, by simpa [List.length_eq_zero] using hl⟩

/-- One unfolding step of the ceiling-division count. -/
theorem ceil_div_step (m n : ℕ) (hm : 0 < m) (hn : 0 < n) :
    (m - n + n - 1) / n + 1 = (m + n - 1) / n := by
  rcases le_or_lt m n with h | h
  · have h1 : m - n = 0 := by omega
    have h2 : (n - 1) / n = 0 := Nat.div_eq_of_lt (by omega)
    have h3 : m + n - 1 = (m - 1) + n := by omega
    rw [h1, Nat.zero_add, h2, h3, Nat.add_div_right _ hn, Nat.div_eq_of_lt (by omega)]
  · have h1 : m - n + n - 1 = (m - 1) := by omega
    have h3 : m + n - 1 = (m - 1) + n := by omega
    rw [h1, h3, Nat.add_div_right _ hn]

/-- The number of chunks is the ceiling of the length over the chunk size. -/
theorem chunks_length (n : ℕ) (hn : 0 < n) (l : List α) :
    (chunks n l).length = (l.length + n - 1) / n := by
  suffices H : ∀ (m : ℕ) (l : List α), l.length = m →
      (chunks n l).length = (l.length + n - 1) / n by exact H l.length l rfl
  intro m
  induction m using Nat.strong_induction_on with
  | _ m ih =>
    intro l hm
    by_cases hl : l = []
    · subst hl
      rw [chunks_nil]
      simp only [List.length_nil, Nat.zero_add]
      exact (Nat.div_eq_of_lt (by omega : n - 1 < n)).symm
    · rw [chunks_cons n l hn hl]
      simp only [List.length_cons]
      have hlt : (l.drop n).length < m := by
        rw [← hm]
        simp only [List.length_drop]
        have := List.length_pos.2 hl
        omega
      rw [ih _ hlt (l.drop n) rfl]
      simp only [List.length_drop]
      exact ceil_div_step l.length n (List.length_pos.2 hl) hn

/-- chunks of a nonempty list is nonempty. -/
theorem chunks_ne_nil (n : ℕ) (hn : 0 < n) (l : List α) (hl : l ≠ []) :
    chunks n l ≠ [] := by
  rw [chunks_cons n l hn hl]
  exact List.cons_ne_nil _ _

/-- Every chunk other than the last one is full. -/
theorem chunks_full (n : ℕ) (hn : 0 < n) (l : List α) :
    ∀ i b, (chunks n l).get? i = some b → i ≠ (chunks n l).length - 1 → b.length = n := by
  suffices H : ∀ (m : ℕ) (l : List α), l.length = m → ∀ i b,
      (chunks n l).get? i = some b → i ≠ (chunks n l).length - 1 → b.length = n by
    exact H l.length l rfl
  intro m
  induction m using Nat.strong_induction_on with
  | _ m ih =>
    intro l hm i b hb hne
    by_cases hl : l = []
    · rw [hl, chunks_nil] at hb
      simp at hb
    · rw [chunks_cons n l hn hl] at hb hne
      have hlt : (l.drop n).length < m := by
        rw [← hm]
        simp only [List.length_drop]
        have := List.length_pos.2 hl
        omega
      match i with
      | 0 =>
        simp only [List.get?_cons_zero, Option.some.injEq] at hb
        simp only [List.length_cons] at hne
        have hrest : chunks n (l.drop n) ≠ [] := by
          intro hcon
          rw [hcon] at hne
          simp at hne
        have hdrop : l.drop n ≠ [] := by
          intro hcon
          rw [hcon, chunks_nil] at hrest
          exact hrest rfl
        have hlen : n < l.length := by
          have := List.length_pos.2 hdrop
          simp only [List.length_drop] at this
          omega
        rw [← hb]
        simp [List.length_take]
        omega
      | i + 1 =>
        simp only [List.get?_cons_succ] at hb
        simp only [List.length_cons] at hne
        refine ih _ hlt (l.drop n) rfl i b hb ?_
        intro hcon
        have hrest : chunks n (l.drop n) ≠ [] := by
          intro hcon2
          rw [hcon2] at hb
          simp at hb
        have : 0 < (chunks n (l.drop n)).length := List.length_pos.2 hrest
        omega

end ChunkLemmas

section CollectLemmas

/-- When every element maps to some value, collectSome yields the mapped
list. -/
theorem collectSome_map_of_some (l : List α) (f : α → Option β) (g : α → β)
    (h : ∀ a ∈ l, f a = some (g a)) : collectSome (l.map f) = some (l.map g) := by
  induction l with
  | nil => rfl
  | cons a t ih =>
    have ha := h a (List.mem_cons_self a t)
    simp only [List.map_cons, ha, collectSome]
    rw [ih (fun x hx => h x (List.mem_cons_of_mem a hx))]
    rfl

/-- When every element maps to some value, collectSome succeeds. -/
theorem collectSome_exists (l : List α) (f : α → Option β)
    (h : ∀ a ∈ l, (f a).isSome = true) : ∃ gs, collectSome (l.map f) = some gs := by
  induction l with
  | nil => exact ⟨[], rfl⟩
  | cons a t ih =>
    obtain ⟨b, hb⟩ := Option.isSome_iff_exists.1 (h a (List.mem_cons_self a t))
    obtain ⟨gs, hgs⟩ := ih (fun x hx => h x (List.mem_cons_of_mem a hx))
    exact ⟨b :: gs, by simp [collectSome, hb, hgs]⟩

end CollectLemmas

section ChecksumLemmas

/-- Unfolding of checksum on an appended list. -/
theorem checksum_append (bs1 bs2 : List ℕ) (seed : ℕ) :
    checksum (bs1 ++ bs2) seed = checksum bs2 (checksum bs1 seed) := by
  simp [checksum, List.foldl_append]

/-- checksum agrees with the straight recursion foldXor. -/
theorem checksum_eq_foldXor (bs : List ℕ) (seed : ℕ) : checksum bs seed = foldXor bs seed := by
  induction bs generalizing seed with
  | nil => rfl
  | cons b rest ih => simp [checksum, foldXor] at ih ⊢; exact ih _

end ChecksumLemmas

section BlockLemmas

/-- block_command succeeds whenever the padding fits the padding buffer. -/
theorem blockCommand_le (cmd : Command) (data : List ℕ) (padding padding_byte sequence : ℕ)
    (h : padding ≤ FLASH_WRITE_SIZE) :
    blockCommand cmd data padding padding_byte sequence =
      some (mkBlockFrame cmd data padding padding_byte sequence) := by
  rw [blockCommand, if_pos h]

/-- The padding slice of mkBlockFrame is just padding copies of the padding
byte when it fits the buffer. -/
theorem mkBlockFrame_padding (padding padding_byte : ℕ) (h : padding ≤ FLASH_WRITE_SIZE) :
    (List.replicate FLASH_WRITE_SIZE padding_byte).take padding =
      List.replicate padding padding_byte := by
  rw [List.take_replicate]
  congr 1
  omega

/-- The payload of a block frame has 16 header bytes plus data plus padding. -/
theorem mkBlockFrame_payload_length (cmd : Command) (data : List ℕ)
    (padding padding_byte sequence : ℕ) (h : padding ≤ FLASH_WRITE_SIZE) :
    (mkBlockFrame cmd data padding padding_byte sequence).payload.length =
      16 + data.length + padding := by
  simp only [mkBlockFrame, List.length_append, le32, List.length_cons, List.length_nil,
    List.length_take, List.length_replicate]
  have : padding ⊓ FLASH_WRITE_SIZE = padding := by omega
  omega

/-- The padding loop of block_command folds the padding byte into the
checksum padding-many times. -/
theorem foldRange_checksum (p b s : ℕ) :
    (List.range p).foldl (fun c _ => checksum [b] c) s = checksum (List.replicate p b) s := by
  induction p with
  | zero => rfl
  | succ q ih =>
    rw [List.range_succ, List.foldl_append, ih, List.replicate_succ' q b, checksum_append]
    rfl

end BlockLemmas

/-- C4: get_erase_size equals the section 4.5 head-aligned formula (ceiling of
size over the sector size, head sectors to the next 16-sector block boundary,
halved when the span is mostly head), and in particular maps (0, 0x1000) to
0x1000 and (0, 0x20000) to 0x10000. -/
theorem get_erase_size_c4 :
    (∀ offset size, get_erase_size offset size = eraseSizeSpec offset size) ∧
    get_erase_size 0 0x1000 = 0x1000 ∧ get_erase_size 0 0x20000 = 0x10000 := by
  refine ⟨fun offset size => rfl, by decide, by decide⟩

/-- C5: checksum is the XOR fold from the seed, it composes over list append,
and CHECKSUM_INIT is 0xEF. -/
theorem checksum_c5 :
    (∀ bs seed, checksum bs seed = foldXor bs seed) ∧
    (∀ bs1 bs2 seed, checksum (bs1 ++ bs2) seed = checksum bs2 (checksum bs1 seed)) ∧
    CHECKSUM_INIT = 0xEF :=
  ⟨checksum_eq_foldXor, checksum_append, rfl⟩

/-- C7: FlashSize decoding maps each byte 0x12..0x18 to the size variant
carrying that byte as its discriminant (a round trip both ways) and rejects
every other byte with UnsupportedFlash of that byte; in particular 0x11 is
rejected. -/
theorem flashSize_c7 :
    (∀ s : FlashSize, FlashSize.ofByte s.toByte = .ok s) ∧
    (∀ b, 0x12 ≤ b → b ≤ 0x18 → (FlashSize.ofByte b).map FlashSize.toByte = .ok b) ∧
    (∀ b, b < 0x12 ∨ 0x18 < b → FlashSize.ofByte b = .error (.UnsupportedFlash b)) ∧
    FlashSize.ofByte 0x11 = .error (.UnsupportedFlash 0x11) := by
  refine ⟨fun s => by cases s <;> rfl, fun b h1 h2 => by interval_cases b <;> rfl,
    fun b hb => ?_, rfl⟩
  unfold FlashSize.ofByte
  split
  all_goals first | rfl | omega

/-- Closed instance of flashSize_c7: the round trip at 0x15 and the rejection
of 0x30. -/
theorem flashSize_c7_witness :
    (FlashSize.ofByte 0x15).map FlashSize.toByte = .ok 0x15 ∧
    FlashSize.ofByte 0x30 = .error (.UnsupportedFlash 0x30) :=
  ⟨flashSize_c7.2.1 0x15 (by decide) (by decide),
   flashSize_c7.2.2.1 0x30 (Or.inr (by decide))⟩

section SpiLemmas

/-- The poll events of one read: the count of usr reads in a sleep-read pair
trace equals the number of pairs. -/
theorem countReads_pairs (f : ℕ → ℕ) (ks : List ℕ) :
    (((ks.map (fun j => [SpiEvent.sleepMs 1, SpiEvent.readUsr (f j)])).flatten).countP
      SpiEvent.isRead) = ks.length := by
  induction ks with
  | nil => rfl
  | cons k rest ih =>
    simp [List.countP_cons, SpiEvent.isRead, ih]

/-- When every remaining read keeps bit 18 set, the poll runs fuel + 1
sleep-read rounds and fails with Timeout. -/
theorem spiPollGo_timeout (reads : ℕ → ℕ) :
    ∀ fuel k, (∀ j, j ≤ fuel → (reads (k + j)).testBit 18 = true) →
      spiPollGo reads fuel k =
        (((List.range' k (fuel + 1)).map
          (fun j => [SpiEvent.sleepMs 1, SpiEvent.readUsr (reads j)])).flatten,
         .error .Timeout) := by
  intro fuel
  induction fuel with
  | zero =>
    intro k h
    have hk := h 0 (le_refl 0)
    simp only [Nat.add_zero] at hk
    simp [spiPollGo, hk, List.range'_succ]
  | succ f ih =>
    intro k h
    have hk := h 0 (Nat.zero_le _)
    simp only [Nat.add_zero] at hk
    have ht := ih (k + 1) (fun j hj => by
      have := h (j + 1) (by omega)
      simpa [Nat.add_assoc, Nat.add_comm 1 j] using this)
    simp [spiPollGo, hk, ht, List.range'_succ]

/-- When the first j reads keep bit 18 set and read j clears it, the poll
runs j + 1 sleep-read rounds and succeeds. -/
theorem spiPollGo_success (reads : ℕ → ℕ) :
    ∀ j fuel k, j ≤ fuel → (∀ i, i < j → (reads (k + i)).testBit 18 = true) →
      (reads (k + j)).testBit 18 = false →
      spiPollGo reads fuel k =
        (((List.range' k (j + 1)).map
          (fun i => [SpiEvent.sleepMs 1, SpiEvent.readUsr (reads i)])).flatten,
         .ok ()) := by
  intro j
  induction j with
  | zero =>
    intro fuel k _ _ hclear
    simp only [Nat.add_zero] at hclear
    cases fuel <;> simp [spiPollGo, hclear, List.range'_succ]
  | succ j ih =>
    intro fuel k hle hset hclear
    have hk := hset 0 (Nat.succ_pos j)
    simp only [Nat.add_zero] at hk
    obtain ⟨f, rfl⟩ : ∃ f, fuel = f + 1 := ⟨fuel - 1, by omega⟩
    have ht := ih f (k + 1) (by omega)
      (fun i hi => by
        have := hset (i + 1) (by omega)
        simpa [Nat.add_assoc, Nat.add_comm 1 i] using this)
      (by simpa [Nat.add_assoc, Nat.add_comm 1 j] using hclear)
    simp [spiPollGo, hk, ht, List.range'_succ]

end SpiLemmas

/-- C6: the spi_command poll sleeps 1 ms before each read of usr; if every
read up to index 10 keeps bit 18 set it fails with Timeout after exactly 11
reads, and it completes successfully right after the first read whose bit 18
is clear. -/
theorem spi_poll_c6 :
    (∀ reads : ℕ → ℕ, (∀ j, j ≤ 10 → (reads j).testBit 18 = true) →
      spiPoll reads =
        (((List.range 11).map
          (fun j => [SpiEvent.sleepMs 1, SpiEvent.readUsr (reads j)])).flatten,
         .error .Timeout) ∧
      (spiPoll reads).1.countP SpiEvent.isRead = 11) ∧
    (∀ (reads : ℕ → ℕ) j, j ≤ 10 → (∀ i, i < j → (reads i).testBit 18 = true) →
      (reads j).testBit 18 = false →
      spiPoll reads =
        (((List.range (j + 1)).map
          (fun i => [SpiEvent.sleepMs 1, SpiEvent.readUsr (reads i)])).flatten,
         .ok ()) ∧
      (spiPoll reads).1.countP SpiEvent.isRead = j + 1) := by
  constructor
  · intro reads h
    have he := spiPollGo_timeout reads 10 0 (fun j hj => by simpa using h j hj)
    rw [List.range_eq_range']
    refine ⟨he, ?_⟩
    unfold spiPoll
    rw [he]
    simpa [List.length_range'] using countReads_pairs reads (List.range' 0 11)
  · intro reads j hj hset hclear
    have he := spiPollGo_success reads j 10 0 hj (fun i hi => by simpa using hset i hi)
      (by simpa using hclear)
    rw [List.range_eq_range']
    refine ⟨he, ?_⟩
    unfold spiPoll
    rw [he]
    simpa [List.length_range'] using countReads_pairs reads (List.range' 0 (j + 1))

/-- Closed instance of spi_poll_c6: a device whose usr keeps bit 18 set times
out after 11 reads, and one that clears it on the fourth read completes after
4 reads. -/
theorem spi_poll_c6_witness :
    (spiPoll (fun _ => 262144) =
      (((List.range 11).map
        (fun j => [SpiEvent.sleepMs 1, SpiEvent.readUsr 262144])).flatten,
       .error .Timeout) ∧
     (spiPoll (fun _ => 262144)).1.countP SpiEvent.isRead = 11) ∧
    ((spiPoll (fun k => if k < 3 then 262144 else 0)).2 = .ok () ∧
     (spiPoll (fun k => if k < 3 then 262144 else 0)).1.countP SpiEvent.isRead = 4) := by
  refine ⟨spi_poll_c6.1 (fun _ => 262144)
    (fun j _ => (by decide : Nat.testBit 262144 18 = true)), ?_, ?_⟩
  · exact congrArg Prod.snd (spi_poll_c6.2 (fun k => if k < 3 then 262144 else 0) 3
      (by decide) (fun i hi => by interval_cases i <;> decide) (by decide)).1
  · exact (spi_poll_c6.2 (fun k => if k < 3 then 262144 else 0) 3
      (by decide) (fun i hi => by interval_cases i <;> decide) (by decide)).2

section SyncLemmas

/-- A Sync-opcode response at the current cursor settles the poll at once:
the RomError code when status = 1, a silent acknowledgement otherwise. -/
theorem syncPoll_found (resp : ℕ → Option Response) (fuel c : ℕ) (r : Response)
    (hresp : resp c = some r) (hop : r.return_op = Command.Sync.toByte) :
    syncPoll resp (fuel + 1) c =
      ([.readResp (resp c)], if r.status = 1 then some r.error else none, c + 1) := by
  simp only [syncPoll, hresp]
  rw [if_pos hop]
  by_cases hs : r.status = 1 <;> simp [hs]

/-- One drain batch stops right after a first actual response. -/
theorem drainBatch_some (resp : ℕ → Option Response) (fuel c : ℕ)
    (h : (resp c).isSome = true) :
    drainBatch resp (fuel + 1) c = ([.readResp (resp c)], c + 1) := by
  obtain ⟨r, hr⟩ := Option.isSome_iff_exists.1 h
  simp [drainBatch, hr]

/-- When the device answers every read, each of the drain batches consumes
exactly one response. -/
theorem drainEchoes_all_some (resp : ℕ → Option Response) :
    ∀ batches c, (∀ k, c ≤ k → (resp k).isSome = true) →
      (drainEchoes resp batches c).2 = c + batches := by
  intro batches
  induction batches with
  | zero => intro c _; rfl
  | succ b ih =>
    intro c h
    have hb := drainBatch_some resp 99 c (h c (le_refl c))
    have ht := ih (c + 1) (fun k hk => h k (by omega))
    simp only [drainEchoes, hb, ht]
    omega

/-- The event trace of one sync attempt starts with the Sync request. -/
theorem sync_starts_writeSync (resp : ℕ → Option Response) (c : ℕ) :
    ∃ t, (sync resp c).1 = ConnEvent.writeSync :: t := by
  unfold sync
  cases hp : (syncPoll resp 100 c).2.1 <;> simp [hp]

end SyncLemmas

/-- C10: start_connection resets into the bootloader first, flushes stale
input before each sync attempt, returns Ok on the first attempt that
succeeds, moves to the next attempt when one fails, reports ConnectionFailed
when every one of the 10 attempts fails, and within one attempt a Sync-opcode
response with status 1 fails with the RomError code from the device while a
status-0 acknowledgement is followed by 7 drain batches (8 reads in all when
the device answers every read). -/
theorem start_connection_c10 :
    (∀ resp, (startConnection resp).1.head? = some ConnEvent.resetToFlash) ∧
    (∀ resp n c, ((startConnectionGo resp (n + 1) c).1.take 2) =
      [ConnEvent.flushPort, ConnEvent.writeSync]) ∧
    (∀ resp n c, (sync resp c).2.1 = none →
      (startConnectionGo resp (n + 1) c).2.1 = .ok ()) ∧
    (∀ resp n c e, (sync resp c).2.1 = some e →
      (startConnectionGo resp (n + 1) c).2.1 =
        (startConnectionGo resp n (sync resp c).2.2).2.1) ∧
    (∀ resp, (∀ c, ((sync resp c).2.1).isSome = true) →
      (startConnection resp).2 = .error .ConnectionFailed) ∧
    (∀ (resp : ℕ → Option Response) c r, resp c = some r →
      r.return_op = Command.Sync.toByte → r.status = 1 →
      (sync resp c).2.1 = some r.error) ∧
    (∀ (resp : ℕ → Option Response) c r, resp c = some r →
      r.return_op = Command.Sync.toByte → r.status = 0 →
      (∀ k, c < k → (resp k).isSome = true) →
      (sync resp c).2 = (none, c + 8)) := by
  have hfail : ∀ resp, (∀ c, ((sync resp c).2.1).isSome = true) →
      ∀ n c, (startConnectionGo resp n c).2.1 = .error .ConnectionFailed := by
    intro resp h n
    induction n with
    | zero => intro c; rfl
    | succ m ih =>
      intro c
      obtain ⟨e, he⟩ := Option.isSome_iff_exists.1 (h c)
      simp [startConnectionGo, he, ih]
  refine ⟨?_, ?_, ?_, ?_, ?_, ?_, ?_⟩
  · intro resp
    rfl
  · intro resp n c
    obtain ⟨t, ht⟩ := sync_starts_writeSync resp c
    cases hm : (sync resp c).2.1 <;> simp [startConnectionGo, hm, ht]
  · intro resp n c h
    simp [startConnectionGo, h]
  · intro resp n c e h
    simp [startConnectionGo, h]
  · intro resp h
    exact hfail resp h 10 0
  · intro resp c r hresp hop hstat
    have h100 : syncPoll resp 100 c = ([.readResp (resp c)], some r.error, c + 1) := by
      simpa [hstat] using syncPoll_found resp 99 c r hresp hop
    simp [sync, h100]
  · intro resp c r hresp hop hstat hall
    have h100 : syncPoll resp 100 c = ([.readResp (resp c)], none, c + 1) := by
      simpa [hstat] using syncPoll_found resp 99 c r hresp hop
    have hd : (drainEchoes resp 7 (c + 1)).2 = c + 8 := by
      have := drainEchoes_all_some resp 7 (c + 1) (fun k hk => hall k (by omega))
      omega
    simp [sync, h100, hd]

/-- Closed instance of start_connection_c10: a device that always reports a
status-1 Sync error makes every attempt fail with RomError 5 and the whole
connection fail, while a device that always acknowledges succeeds with the
acknowledgement plus 7 drained echo reads. -/
theorem start_connection_c10_witness :
    (startConnection (fun _ => some ⟨8, 0, 1, 5⟩)).2 = .error .ConnectionFailed ∧
    (sync (fun _ => some ⟨8, 0, 1, 5⟩) 0).2.1 = some 5 ∧
    (startConnectionGo (fun _ => some ⟨8, 0, 1, 5⟩) 2 0).2.1 =
      (startConnectionGo (fun _ => some ⟨8, 0, 1, 5⟩) 1
        (sync (fun _ => some ⟨8, 0, 1, 5⟩) 0).2.2).2.1 ∧
    (sync (fun _ => some ⟨8, 0, 0, 0⟩) 0).2 = (none, 8) ∧
    (startConnectionGo (fun _ => some ⟨8, 0, 0, 0⟩) 10 0).2.1 = .ok () := by
  refine ⟨start_connection_c10.2.2.2.2.1 _ (fun c => rfl),
    start_connection_c10.2.2.2.2.2.1 _ 0 ⟨8, 0, 1, 5⟩ rfl rfl rfl,
    start_connection_c10.2.2.2.1 _ 1 0 5
      (start_connection_c10.2.2.2.2.2.1 _ 0 ⟨8, 0, 1, 5⟩ rfl rfl rfl),
    start_connection_c10.2.2.2.2.2.2 _ 0 ⟨8, 0, 0, 0⟩ rfl rfl rfl (fun k _ => rfl),
    start_connection_c10.2.2.1 _ 9 0 rfl⟩

section RamLemmas

/-- The alignment padding is between 1 and 4 and in particular fits the
padding buffer. -/
theorem ramPad_le (len : ℕ) : 1 ≤ ramPad len ∧ ramPad len ≤ 4 := by
  unfold ramPad
  omega

/-- When the segment length is not a multiple of the ram block size, the
announced block count agrees with the number of data chunks. -/
theorem ramBlockCount_eq (len : ℕ) (h : len % MAX_RAM_BLOCK_SIZE ≠ 0) :
    ramBlockCount len = (len + MAX_RAM_BLOCK_SIZE - 1) / MAX_RAM_BLOCK_SIZE := by
  unfold ramBlockCount ramPad MAX_RAM_BLOCK_SIZE at *
  omega

/-- The ram segment loop never panics: its frames are the MemBegin plus the
per-chunk MemData frames, with the padding attached to the chunk whose index
is block_count - 1. -/
theorem ram_frames_eq (s : Segment) :
    ramSegmentFrames s =
      some (beginFrame .MemBegin s.data.length (ramBlockCount s.data.length)
          MAX_RAM_BLOCK_SIZE s.addr ::
        (chunks MAX_RAM_BLOCK_SIZE s.data).enum.map (fun p =>
          mkBlockFrame .MemData p.2
            (if p.1 = ramBlockCount s.data.length - 1 then ramPad s.data.length else 0)
            0 p.1)) := by
  simp only [ramSegmentFrames]
  rw [collectSome_map_of_some ((chunks MAX_RAM_BLOCK_SIZE s.data).enum)
      (fun p => blockCommand .MemData p.2
        (if p.1 = ramBlockCount s.data.length - 1 then ramPad s.data.length else 0) 0 p.1)
      (fun p => mkBlockFrame .MemData p.2
        (if p.1 = ramBlockCount s.data.length - 1 then ramPad s.data.length else 0) 0 p.1)
      (fun p _ => blockCommand_le _ _ _ _ _ (by
        have h4 : ramPad s.data.length ≤ 4 := (ramPad_le s.data.length).2
        have hw : FLASH_WRITE_SIZE = 1024 := rfl
        split <;> omega))]
  rfl

end RamLemmas

/-- C9: an image with a rom segment makes load_elf_to_ram fail with
ElfNotRamLoadable with an empty frame trace, so nothing is sent to the
device. -/
theorem load_ram_c9 (image : FirmwareImage) (h : image.romSegments ≠ []) :
    loadElfToRam image = some ([], .error .ElfNotRamLoadable) := by
  rw [loadElfToRam, if_pos h]

/-- Closed instance of load_ram_c9 on a one-rom-segment image. -/
theorem load_ram_c9_witness :
    (FirmwareImage.mk 7 [⟨0, [1, 2]⟩] [⟨0x40200000, [0xe9]⟩]).romSegments ≠ [] ∧
    loadElfToRam (FirmwareImage.mk 7 [⟨0, [1, 2]⟩] [⟨0x40200000, [0xe9]⟩]) =
      some ([], .error .ElfNotRamLoadable) :=
  ⟨by decide, load_ram_c9 _ (by decide)⟩

/-- C1: the ram-load padding is always 1..4 and block_count is
ceil((len + pad) / 0x1800); for every segment whose length is not a multiple
of 0x1800 the frames are exactly as the claim states (MemBegin(len,
block_count, 0x1800, addr), then the chunks with the padding of byte 0 on the
last transmitted block and none elsewhere), and after all segments MemEnd
carries EntryParams{no_entry = (entry == 0), entry}.  For an aligned segment,
however, the padding condition index block_count - 1 is never reached: with
0x1800 data bytes the code announces 2 blocks yet transmits a single MemData
block of 16 + 0x1800 payload bytes, that is with no padding at all. -/
theorem load_ram_c1 :
    (∀ len, 1 ≤ ramPad len ∧ ramPad len ≤ 4) ∧
    (∀ s : Segment, s.data.length % MAX_RAM_BLOCK_SIZE ≠ 0 →
      ramSegmentFrames s = some (ramSpecSegmentFrames s)) ∧
    (∀ image : FirmwareImage, image.romSegments = [] →
      (loadElfToRam image).map (fun r => (r.1.getLast?, r.2)) =
        some (some (memFinishFrame image.entry), .ok ())) ∧
    (ramPad 0x1800 = 4 ∧ ramBlockCount 0x1800 = 2 ∧
      (ramSegmentFrames ⟨0x40100000, List.replicate 0x1800 0⟩).map
        (fun fs => fs.map (fun f => f.payload.length)) = some [16, 16 + 0x1800]) := by
  have hM : (0 : ℕ) < MAX_RAM_BLOCK_SIZE := by norm_num [MAX_RAM_BLOCK_SIZE]
  refine ⟨ramPad_le, ?_, ?_, rfl, by decide, ?_⟩
  · intro s hlen
    rw [ram_frames_eq s]
    have hbc : (s.data.length + (4 - s.data.length % 4) + MAX_RAM_BLOCK_SIZE - 1) /
        MAX_RAM_BLOCK_SIZE = (chunks MAX_RAM_BLOCK_SIZE s.data).length := by
      rw [chunks_length MAX_RAM_BLOCK_SIZE hM s.data]
      have h2 := ramBlockCount_eq s.data.length hlen
      simpa [ramBlockCount, ramPad] using h2
    simp only [ramSpecSegmentFrames, ramBlockCount, ramPad]
    rw [hbc]
  · intro image h
    rw [loadElfToRam, if_neg (by simp [h])]
    obtain ⟨gs, hgs⟩ := collectSome_exists image.ramSegments ramSegmentFrames
      (fun s _ => by rw [ram_frames_eq s]; rfl)
    rw [hgs]
    simp
  · have hrep_ne : List.replicate 0x1800 (0 : ℕ) ≠ [] := by
      intro hcon
      have hlc := congrArg List.length hcon
      simp only [List.length_replicate, List.length_nil] at hlc
      omega
    have hch : chunks MAX_RAM_BLOCK_SIZE (List.replicate 0x1800 (0 : ℕ)) =
        [List.replicate 0x1800 0] := by
      rw [chunks_cons MAX_RAM_BLOCK_SIZE _ hM hrep_ne]
      norm_num [MAX_RAM_BLOCK_SIZE, List.take_replicate, List.drop_replicate, chunks_nil]
    rw [ram_frames_eq ⟨0x40100000, List.replicate 0x1800 0⟩]
    dsimp only
    rw [hch]
    simp only [List.enum_cons, List.enumFrom_nil, List.map_cons, List.map_nil, Option.map_some',
      List.length_replicate]
    have hpad : (if 0 = ramBlockCount 0x1800 - 1 then ramPad 0x1800 else 0) = 0 := by decide
    rw [hpad, mkBlockFrame_payload_length _ _ _ _ _ (Nat.zero_le _)]
    simp only [beginFrame, mkDataFrame, le32, List.length_append, List.length_cons,
      List.length_nil, List.length_replicate]

/-- Closed instance of load_ram_c1: the unaligned three-byte segment follows
the claim, and an empty ram image still ends with the MemEnd frame. -/
theorem load_ram_c1_witness :
    ramSegmentFrames ⟨0, [1, 2, 3]⟩ = some (ramSpecSegmentFrames ⟨0, [1, 2, 3]⟩) ∧
    (loadElfToRam (FirmwareImage.mk 5 [] [])).map (fun r => (r.1.getLast?, r.2)) =
      some (some (memFinishFrame 5), .ok ()) :=
  ⟨load_ram_c1.2.1 ⟨0, [1, 2, 3]⟩ (by decide), load_ram_c1.2.2.1 _ rfl⟩

section FlashLemmas

/-- Padding every chunk up to n is the same as padding only the last chunk,
as long as every chunk before the last is already full. -/
theorem map_pads_eq (n : ℕ) (cmd : Command) (pb : ℕ) :
    ∀ (cs : List (List ℕ)) (k m : ℕ),
      (∀ j b, cs.get? j = some b → k + j ≠ m → b.length = n) →
      (List.enumFrom k cs).map (fun p => mkBlockFrame cmd p.2 (n - p.2.length) pb p.1) =
      (List.enumFrom k cs).map (fun p =>
        mkBlockFrame cmd p.2 (if p.1 = m then n - p.2.length else 0) pb p.1) := by
  intro cs
  induction cs with
  | nil => intro k m _; rfl
  | cons c t ih =>
    intro k m h
    simp only [List.enumFrom_cons, List.map_cons]
    congr 1
    · by_cases hk : k = m
      · simp [hk]
      · have hc : c.length = n := h 0 c rfl (by omega)
        simp [hk, hc]
    · exact ih (k + 1) m (fun j b hj hne =>
        h (j + 1) b (by simpa [List.get?_cons_succ] using hj) (by omega))

/-- For a chip the erase-size match covers, the flash segment loop sends
exactly the frames of the claim: FlashBegin, then the chunks each padded up
to FLASH_WRITE_SIZE with 0xFF - equivalently, the last short chunk padded and
every other chunk untouched, since the others are full. -/
theorem flash_frames_eq (chip : Chip) (s : Segment) (erase : ℕ)
    (hchip : eraseSizeFor chip s.addr s.data.length = some erase) :
    flashSegmentFrames chip s = some (flashSpecSegmentFrames erase s) := by
  have hW : (0 : ℕ) < FLASH_WRITE_SIZE := by norm_num [FLASH_WRITE_SIZE]
  simp only [flashSegmentFrames]
  rw [hchip]
  rw [collectSome_map_of_some ((chunks FLASH_WRITE_SIZE s.data).enum)
      (fun p => blockCommand .FlashData p.2 (FLASH_WRITE_SIZE - p.2.length) 0xff p.1)
      (fun p => mkBlockFrame .FlashData p.2 (FLASH_WRITE_SIZE - p.2.length) 0xff p.1)
      (fun p _ => blockCommand_le _ _ _ _ _ (Nat.sub_le _ _))]
  simp only [flashSpecSegmentFrames, Option.map_some', Option.some.injEq]
  rw [show (chunks FLASH_WRITE_SIZE s.data).enum =
      List.enumFrom 0 (chunks FLASH_WRITE_SIZE s.data) from rfl]
  rw [map_pads_eq FLASH_WRITE_SIZE .FlashData 0xff (chunks FLASH_WRITE_SIZE s.data) 0
      ((chunks FLASH_WRITE_SIZE s.data).length - 1)
      (fun j b hj hne => chunks_full FLASH_WRITE_SIZE hW s.data j b hj (by omega))]

end FlashLemmas

/-- C2: the flash path sends FlashBegin(erase_size, ceil(len / 0x400), 0x400,
addr) with erase_size = len on ESP32 and get_erase_size(addr, len) on
ESP8266, splits the data into 0x400-byte chunks padding the last short chunk
up to 0x400 with 0xFF (all earlier chunks being full carry none), and ends
with FlashEnd carrying the single byte 0x01.  The erase-size match in
flasher.rs has no arm for ESP32-C3, so on that chip the flash path is
undefined instead of using len as the claim states. -/
theorem load_flash_c2 :
    (∀ addr len, eraseSizeFor .Esp32 addr len = some len) ∧
    (∀ addr len, eraseSizeFor .Esp8266 addr len = some (get_erase_size addr len)) ∧
    (∀ s : Segment, flashSegmentFrames .Esp32 s =
      some (flashSpecSegmentFrames s.data.length s)) ∧
    (∀ s : Segment, flashSegmentFrames .Esp8266 s =
      some (flashSpecSegmentFrames (get_erase_size s.addr s.data.length) s)) ∧
    (∀ chip segs fs, loadElfToFlash chip segs = some fs →
      fs.getLast? = some (flashFinishFrame false) ∧
      flashFinishFrame false = mkDataFrame .FlashEnd [1] 0) ∧
    (eraseSizeFor .Esp32c3 0x10000 0x801 = none ∧
      flashSegmentFrames .Esp32c3 ⟨0x10000, [0xe9]⟩ = none ∧
      loadElfToFlash .Esp32c3 [⟨0x10000, [0xe9]⟩] = none) := by
  refine ⟨fun addr len => rfl, fun addr len => rfl,
    fun s => flash_frames_eq .Esp32 s s.data.length rfl,
    fun s => flash_frames_eq .Esp8266 s (get_erase_size s.addr s.data.length) rfl,
    ?_, rfl, rfl, rfl⟩
  intro chip segs fs h
  refine ⟨?_, rfl⟩
  cases henable : enableFlash chip with
  | none => rw [loadElfToFlash, henable] at h; exact absurd h (by simp)
  | some ef =>
    rw [loadElfToFlash, henable] at h
    obtain ⟨fss, _, heq⟩ := Option.map_eq_some'.1 h
    rw [← heq, List.getLast?_concat]

/-- Closed instance of load_flash_c2: flashing an empty segment list on ESP32
still ends with the FlashEnd frame carrying byte 0x01. -/
theorem load_flash_c2_witness :
    ([mkDataFrame .SpiAttach (List.replicate 5 0) 0, flashFinishFrame false].getLast? =
      some (flashFinishFrame false)) ∧
    flashFinishFrame false = mkDataFrame .FlashEnd [1] 0 :=
  load_flash_c2.2.2.2.2.1 .Esp32 [] _ rfl

/-- C8: enable_flash sends FlashBegin(0, 0, 0x400, 0) on ESP8266 and
SpiAttach with a five-byte all-zero payload on ESP32; its match has no arm
for ESP32-C3, so on that chip it is undefined rather than sending SpiAttach
as the claim states. -/
theorem enable_flash_c8 :
    enableFlash .Esp8266 = some (beginFrame .FlashBegin 0 0 FLASH_WRITE_SIZE 0) ∧
    beginFrame .FlashBegin 0 0 FLASH_WRITE_SIZE 0 =
      Frame.mk 0x02 16 [0, 0, 0, 0, 0, 0, 0, 0, 0, 4, 0, 0, 0, 0, 0, 0] 0 ∧
    enableFlash .Esp32 = some (Frame.mk 0x0d 5 [0, 0, 0, 0, 0] 0) ∧
    enableFlash .Esp32c3 = none :=
  ⟨rfl, by decide, by decide, rfl⟩

/-- C3 counterexample: block_command does not emit a frame for every padding
count - a padding of 0x401 overruns the 0x400-byte padding buffer (none,
a panic in the source), and with 0xfff0 data bytes the declared u16 payload
length wraps to 0 while the encoded payload holds 0x10000 bytes. -/
theorem block_command_c3_counterexample :
    blockCommand .FlashData [] 0x401 0xff 0 = none ∧
    (blockCommand .FlashData (List.replicate 0xfff0 0) 0 0xff 0).map
      (fun f => (f.declared, f.payload.length)) = some (0, 0x10000) := by
  constructor
  · rw [blockCommand, if_neg (by norm_num [FLASH_WRITE_SIZE])]
  · rw [blockCommand_le _ _ _ _ _ (Nat.zero_le _), Option.map_some',
      mkBlockFrame_payload_length _ _ _ _ _ (Nat.zero_le _)]
    simp only [mkBlockFrame, List.length_replicate]

/-- C3 (amended): for every command, data, padding count at most 0x400
(larger counts overrun the padding buffer), padding byte and sequence number,
block_command emits one frame whose payload is BlockParams{size =
len + pad, sequence, 0, 0} then the data then pad copies of the padding
byte, whose declared length is (16 + len + pad) taken as a u16 - the encoded
payload byte count whenever that count fits a u16 - and whose checksum slot
is the XOR fold of the data from 0xEF followed by pad XORs of the padding
byte; with len = 0x3FE, pad = 2 and padding byte 0xFF the checksum is
XOR(0xEF, data) XOR 0xFF XOR 0xFF. -/
theorem block_command_c3 :
    ∀ (cmd : Command) (data : List ℕ) (padding padding_byte sequence : ℕ),
      padding ≤ FLASH_WRITE_SIZE →
      blockCommand cmd data padding padding_byte sequence =
        some (mkBlockFrame cmd data padding padding_byte sequence) ∧
      (mkBlockFrame cmd data padding padding_byte sequence).op = cmd.toByte ∧
      (mkBlockFrame cmd data padding padding_byte sequence).payload =
        (le32 (data.length + padding) ++ le32 sequence ++ le32 0 ++ le32 0) ++ data ++
          List.replicate padding padding_byte ∧
      (mkBlockFrame cmd data padding padding_byte sequence).declared =
        (16 + data.length + padding) % 65536 ∧
      (16 + data.length + padding < 65536 →
        (mkBlockFrame cmd data padding padding_byte sequence).declared =
          (mkBlockFrame cmd data padding padding_byte sequence).payload.length) ∧
      (mkBlockFrame cmd data padding padding_byte sequence).checksum =
        checksum (data ++ List.replicate padding padding_byte) CHECKSUM_INIT ∧
      (data.length = 0x3FE → padding = 2 → padding_byte = 0xff →
        (mkBlockFrame cmd data padding padding_byte sequence).checksum =
          checksum data CHECKSUM_INIT ^^^ 0xff ^^^ 0xff) := by
  intro cmd data padding padding_byte sequence h
  refine ⟨blockCommand_le _ _ _ _ _ h, rfl, ?_, rfl, ?_, ?_, ?_⟩
  · show (le32 (data.length + padding) ++ le32 sequence ++ le32 0 ++ le32 0)
      ++ data ++ (List.replicate FLASH_WRITE_SIZE padding_byte).take padding = _
    rw [mkBlockFrame_padding padding padding_byte h]
  · intro hlt
    rw [mkBlockFrame_payload_length _ _ _ _ _ h]
    show (16 + data.length + padding) % 65536 = 16 + data.length + padding
    exact Nat.mod_eq_of_lt hlt
  · show (List.range padding).foldl (fun c _ => checksum [padding_byte] c)
      (checksum data CHECKSUM_INIT) = _
    rw [foldRange_checksum, checksum_append]
  · intro _ hp hb
    subst hp
    subst hb
    show (List.range 2).foldl (fun c _ => checksum [0xff] c)
      (checksum data CHECKSUM_INIT) = _
    rfl

/-- Closed instance of block_command_c3 at a 0x3FE-byte data block with two
0xFF padding bytes. -/
theorem block_command_c3_witness :
    blockCommand .FlashData (List.replicate 0x3fe 9) 2 0xff 7 =
      some (mkBlockFrame .FlashData (List.replicate 0x3fe 9) 2 0xff 7) ∧
    (mkBlockFrame .FlashData (List.replicate 0x3fe 9) 2 0xff 7).declared =
      (mkBlockFrame .FlashData (List.replicate 0x3fe 9) 2 0xff 7).payload.length ∧
    (mkBlockFrame .FlashData (List.replicate 0x3fe 9) 2 0xff 7).checksum =
      checksum (List.replicate 0x3fe 9) CHECKSUM_INIT ^^^ 0xff ^^^ 0xff := by
  have h := block_command_c3 .FlashData (List.replicate 0x3fe 9) 2 0xff 7
    (by norm_num [FLASH_WRITE_SIZE])
  exact ⟨h.1, h.2.2.2.2.1 (by rw [List.length_replicate]; norm_num),
    h.2.2.2.2.2.2 (by rw [List.length_replicate]) rfl rfl⟩

end EspFlash
